import Mathlib

/-!
Verification of the MassPassGen generation engine (`src/masspassgen.py`).

The embedding models the program's randomness (Python's global `random`
module) as an explicit oracle `g : Nat → Nat`: each primitive draw consumes
one position of the oracle.  The unbounded `while` loop of the random
sampler is rendered with explicit fuel and an `Option` result: `none` means
the loop has not yet reached `count` distinct members within the given
fuel (the source loop has no iteration cap).  File output is modelled by
returning the exact character sequence written.
-/

/-! ## Charset Provider (`MassPassGen.__init__`, line 17)

`self.charset = string.ascii_letters + string.digits + string.punctuation`.
The three Python constants are fixed ASCII sequences, spelled out here. -/

/-- `string.ascii_letters`: lowercase then uppercase ASCII letters. -/
def asciiLetters : List Char :=
  "abcdefghijklmnopqrstuvwxyzABCDEFGHIJKLMNOPQRSTUVWXYZ".toList

/-- `string.digits`. -/
def digitChars : List Char := "0123456789".toList

/-- `string.punctuation`: the 32 ASCII punctuation characters, by code point
(codes 33-47, 58-64, 91-96, 123-126). -/
def punctChars : List Char :=
  [33, 34, 35, 36, 37, 38, 39, 40, 41, 42, 43, 44, 45, 46, 47,
   58, 59, 60, 61, 62, 63, 64,
   91, 92, 93, 94, 95, 96,
   123, 124, 125, 126].map Char.ofNat

/-- The declared charset: letters ++ digits ++ punctuation (line 17). -/
def charset : List Char := asciiLetters ++ digitChars ++ punctChars

/-! ## Randomness primitives -/

/-- `random.choice(cs)`: one uniformly indexed element of a non-empty
sequence, the index being the oracle value modulo the length. -/
def randChoice (g : Nat → Nat) (i : Nat) (cs : List Char) : Char :=
  if h : 0 < cs.length then cs.get ⟨g i % cs.length, Nat.mod_lt _ h⟩
  else Char.ofNat 0

/-- `''.join(random.choices(cs, k))`: `k` independent draws with
replacement, consuming oracle positions `i, i+1, …, i+k-1`. -/
def randString (g : Nat → Nat) (i : Nat) (cs : List Char) (k : Nat) : String :=
  String.mk ((List.range k).map (fun j => randChoice g (i + j) cs))

/-- `random.randint(a, b)` (both ends inclusive, assuming `a ≤ b`). -/
def randIntBetween (g : Nat → Nat) (i a b : Nat) : Nat :=
  a + g i % (b - a + 1)

/-! ## Random Sampler (`generate_random_passwords`, lines 19-37) -/

/-- The `while len(passwords) < count` loop (lines 30-35), with the Python
set rendered as a duplicate-free list (`acc`) and the unbounded loop given
explicit fuel; `none` means the fuel ran out before `count` distinct
passwords were collected.  Progress printing (lines 34-35) is a pure side
effect and is not modelled. -/
def genLoop (g : Nat → Nat) (cs : List Char) (count targetLen : Nat) :
    Nat → Nat → List String → Option (List String)
  | 0, _, acc => if acc.length < count then none else some acc
  | fuel + 1, i, acc =>
    if acc.length < count then
      genLoop g cs count targetLen fuel (i + targetLen)
        (if randString g i cs targetLen ∈ acc then acc
         else acc ++ [randString g i cs targetLen])
    else some acc

/-- `generate_random_passwords(count, length=None)`.  Note the Python
truthiness test `if length:` (line 23): a supplied length of `0` is falsy
and falls through to `random.randint(min_len, max_len)` (line 26).  Oracle
position 0 is reserved for that `randint`; character draws start at 1. -/
def generate_random_passwords (g : Nat → Nat) (minLen maxLen count : Nat)
    (lenOpt : Option Nat) (fuel : Nat) : Option (List String) :=
  genLoop g charset count
    (match lenOpt with
     | some l => if l = 0 then randIntBetween g 0 minLen maxLen else l
     | none => randIntBetween g 0 minLen maxLen)
    fuel 1 []

/-! ## Python `str.replace` (used by `apply_pattern`, lines 51-58)

`s.replace(old, new)` replaces every non-overlapping occurrence of `old`
in `s`, scanning left to right.  Rendered on character lists with fuel
equal to the scanned length (each step consumes at least one character,
since the patterns used are non-empty; for an empty pattern the function
degenerates to the identity, a case the program never exercises). -/

def replaceFuel (pat rep : List Char) : Nat → List Char → List Char
  | _, [] => []
  | 0, s => s
  | fuel + 1, c :: t =>
    if pat ≠ [] ∧ pat.isPrefixOf (c :: t) then
      rep ++ replaceFuel pat rep fuel ((c :: t).drop pat.length)
    else
      c :: replaceFuel pat rep fuel t

/-- `s.replace(pat, rep)` on character lists. -/
def pyReplaceL (s pat rep : List Char) : List Char :=
  replaceFuel pat rep s.length s

/-- `s.replace(pat, rep)` on strings. -/
def pyReplace (s pat rep : String) : String :=
  String.mk (pyReplaceL s.data pat.data rep.data)

/-! ## Pattern Expander (`apply_pattern`, lines 51-58) -/

/-- `apply_pattern(pattern, seed)`: four successive blanket replaces, in
the source's order `{n}`, `{a}`, `{d}`, `{s}`; `str(seed)` is `Nat.repr`.
Each of the three random draws happens once per call (lines 55-57) and
consumes one oracle position starting at `base`. -/
def apply_pattern (g : Nat → Nat) (base : Nat) (pattern : String)
    (seed : Nat) : String :=
  pyReplace
    (pyReplace
      (pyReplace
        (pyReplace pattern "{n}" (Nat.repr seed))
        "{a}" (String.mk [randChoice g base asciiLetters]))
      "{d}" (String.mk [randChoice g (base + 1) digitChars]))
    "{s}" (String.mk [randChoice g (base + 2) punctChars])

/-! ## Generation Coordinator, pattern branch
(`generate_pattern_passwords`, lines 39-49) -/

/-- The length filter `self.min_len <= len(pwd) <= self.max_len` (line 46). -/
def lengthOK (minLen maxLen : Nat) (pwd : String) : Bool :=
  decide (minLen ≤ pwd.length) && decide (pwd.length ≤ maxLen)

/-- `generate_pattern_passwords(pattern, count)`: `for i in range(count)`,
appending each expansion that passes the length filter (lines 44-47).
Call `i` uses oracle positions `3*i, 3*i+1, 3*i+2` (the three draws of
`apply_pattern`). -/
def generate_pattern_passwords (g : Nat → Nat) (minLen maxLen : Nat)
    (pattern : String) (count : Nat) : List String :=
  (List.range count).foldl
    (fun acc i =>
      if lengthOK minLen maxLen (apply_pattern g (3 * i) pattern i) then
        acc ++ [apply_pattern g (3 * i) pattern i]
      else acc)
    []

/-! ## Bulk Writer (`save_to_file`, lines 60-70) -/

/-- `save_to_file(passwords, filename)`: open for truncating write, then
`f.write(pwd + '\n')` for each entry in order.  The result is the pair
(return value, written character content).  The environment's ability to
open/write the destination is abstracted by `openOK`; when it is false the
`except` branch (lines 68-70) returns `False` and nothing is written. -/
def save_to_file (openOK : Bool) (passwords : List String) : Bool × String :=
  if openOK then
    (true,
     String.mk (passwords.foldl
       (fun acc pwd => acc ++ pwd.data ++ [Char.ofNat 10]) []))
  else (false, "")

/-! ## Reading a written file back, line by line

Models Python `splitlines()` restricted to the only terminator the writer
emits (code point 10): maximal segments, a final unterminated segment kept,
no empty segment after a trailing terminator. -/

def readLinesAux : List Char → List Char → List (List Char)
  | cur, [] => if cur = [] then [] else [cur]
  | cur, c :: rest =>
    if c = Char.ofNat 10 then cur :: readLinesAux [] rest
    else readLinesAux (cur ++ [c]) rest

/-- Lines of a file's character content. -/
def readLines (s : String) : List String :=
  (readLinesAux [] s.data).map String.mk

/-! ## CLI validation and run pipeline (`main`, lines 110-142)

Argparse integers are modelled as `Int`.  The three validation checks are
lines 111, 115 and 119, in source order, all before any generation.  The
over-10,000,000 interactive confirmation (lines 123-127) and the `.txt`
suffix normalization (lines 139-140) do not affect the claims and are not
modelled. -/

/-- The three validation checks of `main`, as a single acceptance test. -/
def validateArgs (mn mx count : Int) : Bool :=
  if mn < 1 ∨ mx > 128 then false
  else if mn > mx then false
  else if count < 1 then false
  else true

/-- `main` after argument parsing: validation first, then generation
(pattern branch when `args.pattern` is truthy, i.e. present and non-empty,
line 133), then the file write.  `none` = the run aborted before producing
a password collection (validation failure, or sampler fuel exhausted);
`some (passwords, saveResult)` = the collection and the write outcome. -/
def mainRun (g : Nat → Nat) (openOK : Bool) (count mn mx : Int)
    (lenOpt : Option Nat) (patternOpt : Option String) (fuel : Nat) :
    Option (List String × Bool × String) :=
  if mn < 1 ∨ mx > 128 then none
  else if mn > mx then none
  else if count < 1 then none
  else
    let pwds? : Option (List String) :=
      match patternOpt with
      | some p =>
        if p = "" then
          generate_random_passwords g mn.toNat mx.toNat count.toNat lenOpt fuel
        else
          some (generate_pattern_passwords g mn.toNat mx.toNat p count.toNat)
      | none =>
        generate_random_passwords g mn.toNat mx.toNat count.toNat lenOpt fuel
    match pwds? with
    | none => none
    | some pwds => some (pwds, save_to_file openOK pwds)

/-! ## Helper lemmas: `str.replace` -/

theorem pyReplaceL_nil (pat rep : List Char) : pyReplaceL [] pat rep = [] := rfl

theorem replaceFuel_fuel_eq (pat rep : List Char) :
    ∀ fuelA fuelB s, s.length ≤ fuelA → s.length ≤ fuelB →
      replaceFuel pat rep fuelA s = replaceFuel pat rep fuelB s := by
  intro fuelA
  induction fuelA with
  | zero =>
    intro fuelB s hA hB
    have hs : s = [] := List.length_eq_zero.mp (Nat.le_zero.mp hA)
    subst hs
    cases fuelB <;> simp [replaceFuel]
  | succ k ih =>
    intro fuelB s hA hB
    cases s with
    | nil => cases fuelB <;> simp [replaceFuel]
    | cons c t =>
      cases fuelB with
      | zero => simp at hB
      | succ m =>
        simp only [replaceFuel]
        by_cases hcond : pat ≠ [] ∧ pat.isPrefixOf (c :: t)
        · rw [if_pos hcond, if_pos hcond]
          congr 1
          have hplen : 0 < pat.length := List.length_pos.mpr hcond.1
          apply ih
          · simp only [List.length_drop, List.length_cons] at *
            omega
          · simp only [List.length_drop, List.length_cons] at *
            omega
        · rw [if_neg hcond, if_neg hcond]
          congr 1
          apply ih
          · simp only [List.length_cons] at hA
            omega
          · simp only [List.length_cons] at hB
            omega

theorem isPrefixOf_append_self (l t : List Char) :
    l.isPrefixOf (l ++ t) = true := by
  induction l with
  | nil => cases t <;> rfl
  | cons a as ih => simp [List.isPrefixOf, ih]

theorem pyReplaceL_cons_no_match (c : Char) (t pat rep : List Char)
    (h : pat.isPrefixOf (c :: t) = false) :
    pyReplaceL (c :: t) pat rep = c :: pyReplaceL t pat rep := by
  unfold pyReplaceL
  simp only [List.length_cons, replaceFuel]
  rw [if_neg]
  rintro ⟨-, hpre⟩
  simp [h] at hpre

theorem pyReplaceL_append_match (pat t rep : List Char) (hpat : pat ≠ []) :
    pyReplaceL (pat ++ t) pat rep = rep ++ pyReplaceL t pat rep := by
  obtain ⟨a, as, rfl⟩ := List.exists_cons_of_ne_nil hpat
  show replaceFuel (a :: as) rep ((a :: as) ++ t).length ((a :: as) ++ t)
      = rep ++ replaceFuel (a :: as) rep t.length t
  have hlen : ((a :: as) ++ t).length = (as ++ t).length + 1 := by simp
  rw [hlen, List.cons_append]
  simp only [replaceFuel]
  rw [if_pos ⟨hpat, by simp [isPrefixOf_append_self (a :: as) t]⟩]
  congr 1
  simp only [List.append_eq, List.length_cons, List.drop_succ_cons,
    List.drop_left]
  have hle : t.length ≤ (as ++ t).length := by
    rw [List.length_append]; omega
  exact replaceFuel_fuel_eq _ _ _ _ _ hle le_rfl

theorem pyReplaceL_self (pat rep : List Char) (hpat : pat ≠ []) :
    pyReplaceL pat pat rep = rep := by
  have h := pyReplaceL_append_match pat [] rep hpat
  simpa [pyReplaceL_nil] using h

theorem replaceFuel_no_occur (pat rep : List Char) :
    ∀ fuel s, (∀ t ∈ s.tails, pat.isPrefixOf t = false) →
      replaceFuel pat rep fuel s = s := by
  intro fuel
  induction fuel with
  | zero => intro s h; cases s <;> rfl
  | succ k ih =>
    intro s h
    cases s with
    | nil => rfl
    | cons c t =>
      have hself : pat.isPrefixOf (c :: t) = false :=
        h (c :: t) (by simp [List.tails_cons])
      simp only [replaceFuel]
      rw [if_neg (by rintro ⟨-, hpre⟩; simp [hself] at hpre)]
      congr 1
      exact ih t (fun u hu => h u (by simp [List.tails_cons, hu]))

theorem pyReplaceL_no_occur (s pat rep : List Char)
    (h : ∀ t ∈ s.tails, pat.isPrefixOf t = false) :
    pyReplaceL s pat rep = s :=
  replaceFuel_no_occur pat rep s.length s h

theorem replaceFuel_head_notin (a : Char) (patTail rep : List Char) :
    ∀ fuel s, a ∉ s → replaceFuel (a :: patTail) rep fuel s = s := by
  intro fuel
  induction fuel with
  | zero => intro s _; cases s <;> rfl
  | succ k ih =>
    intro s h
    cases s with
    | nil => rfl
    | cons c t =>
      have hac : a ≠ c := fun e => h (by simp [e])
      simp only [replaceFuel]
      rw [if_neg]
      · congr 1
        exact ih t (fun hm => h (List.mem_cons_of_mem _ hm))
      · rintro ⟨-, hpre⟩
        simp only [List.isPrefixOf, Bool.and_eq_true, beq_iff_eq] at hpre
        exact hac hpre.1

theorem pyReplaceL_head_notin (s : List Char) (a : Char)
    (patTail rep : List Char) (h : a ∉ s) :
    pyReplaceL s (a :: patTail) rep = s :=
  replaceFuel_head_notin a patTail rep s.length s h

/-! ## Helper lemmas: `Nat.repr` produces only digit characters -/

theorem digitChar_mem (n : Nat) (h : n < 10) :
    Nat.digitChar n ∈ digitChars := by
  interval_cases n <;> decide

theorem toDigitsCore_mem :
    ∀ (fuel n : Nat) (ds : List Char), (∀ c ∈ ds, c ∈ digitChars) →
      ∀ c ∈ Nat.toDigitsCore 10 fuel n ds, c ∈ digitChars := by
  intro fuel
  induction fuel with
  | zero =>
    intro n ds h c hc
    exact h c (by simpa [Nat.toDigitsCore] using hc)
  | succ k ih =>
    intro n ds h c hc
    have hds : ∀ x ∈ Nat.digitChar (n % 10) :: ds, x ∈ digitChars := by
      intro x hx
      rcases List.mem_cons.mp hx with rfl | hx
      · exact digitChar_mem _ (Nat.mod_lt _ (by norm_num))
      · exact h x hx
    simp only [Nat.toDigitsCore] at hc
    split at hc
    · exact hds c hc
    · exact ih _ _ hds c hc

theorem repr_mem_digitChars (n : Nat) :
    ∀ c ∈ (Nat.repr n).data, c ∈ digitChars := by
  intro c hc
  have he : (Nat.repr n).data = Nat.toDigitsCore 10 (n + 1) n [] := rfl
  rw [he] at hc
  exact toDigitsCore_mem _ _ _ (by simp) c hc

theorem repr_no_brace (n : Nat) : Char.ofNat 123 ∉ (Nat.repr n).data := by
  intro h
  have hmem := repr_mem_digitChars n _ h
  revert hmem
  decide

/-! ## Helper lemmas: the expander leaves token-free text unchanged -/

theorem pyReplace_no_brace (p pat rep : String) (tl : List Char)
    (hpat : pat.data = Char.ofNat 123 :: tl)
    (h : Char.ofNat 123 ∉ p.data) : pyReplace p pat rep = p := by
  unfold pyReplace
  rw [hpat, pyReplaceL_head_notin p.data (Char.ofNat 123) tl rep.data h]

theorem apply_pattern_no_brace (g : Nat → Nat) (base : Nat) (p : String)
    (seed : Nat) (h : Char.ofNat 123 ∉ p.data) :
    apply_pattern g base p seed = p := by
  unfold apply_pattern
  rw [pyReplace_no_brace p "{n}" _ ['n', Char.ofNat 125] (by decide) h,
    pyReplace_no_brace p "{a}" _ ['a', Char.ofNat 125] (by decide) h,
    pyReplace_no_brace p "{d}" _ ['d', Char.ofNat 125] (by decide) h,
    pyReplace_no_brace p "{s}" _ ['s', Char.ofNat 125] (by decide) h]

/-! ## Helper lemmas: random draws stay in the charset -/

theorem randChoice_mem (g : Nat → Nat) (i : Nat) (cs : List Char)
    (h : 0 < cs.length) : randChoice g i cs ∈ cs := by
  unfold randChoice
  rw [dif_pos h]
  exact cs.get_mem _ _

theorem randString_length (g : Nat → Nat) (i : Nat) (cs : List Char)
    (k : Nat) : (randString g i cs k).length = k := by
  show ((List.range k).map (fun j => randChoice g (i + j) cs)).length = k
  simp

theorem randString_mem (g : Nat → Nat) (i : Nat) (cs : List Char) (k : Nat)
    (h : 0 < cs.length) : ∀ c ∈ (randString g i cs k).data, c ∈ cs := by
  intro c hc
  simp only [randString, List.mem_map, List.mem_range] at hc
  obtain ⟨j, -, rfl⟩ := hc
  exact randChoice_mem g (i + j) cs h

/-! ## Helper lemma: the sampler loop invariant -/

theorem genLoop_spec (g : Nat → Nat) (cs : List Char) (count targetLen : Nat)
    (hcs : 0 < cs.length) :
    ∀ fuel i acc ps,
      genLoop g cs count targetLen fuel i acc = some ps →
      acc.length ≤ count → acc.Nodup →
      (∀ p ∈ acc, p.length = targetLen ∧ ∀ c ∈ p.data, c ∈ cs) →
      ps.length = count ∧ ps.Nodup ∧
        ∀ p ∈ ps, p.length = targetLen ∧ ∀ c ∈ p.data, c ∈ cs := by
  intro fuel
  induction fuel with
  | zero =>
    intro i acc ps hrun hle hnd hq
    simp only [genLoop] at hrun
    split at hrun
    · simp at hrun
    · rename_i hge
      obtain rfl := Option.some.inj hrun
      exact ⟨by omega, hnd, hq⟩
  | succ k ih =>
    intro i acc ps hrun hle hnd hq
    simp only [genLoop] at hrun
    split at hrun
    · rename_i hlt
      by_cases hm : randString g i cs targetLen ∈ acc
      · rw [if_pos hm] at hrun
        exact ih _ _ _ hrun hle hnd hq
      · rw [if_neg hm] at hrun
        refine ih _ _ _ hrun ?_ ?_ ?_
        · simp only [List.length_append, List.length_singleton]
          omega
        · rw [List.nodup_append]
          refine ⟨hnd, List.nodup_singleton _, ?_⟩
          intro a ha hb
          rw [List.mem_singleton] at hb
          subst hb
          exact hm ha
        · intro p hp
          rcases List.mem_append.mp hp with h1 | h1
          · exact hq p h1
          · rw [List.mem_singleton] at h1
            subst h1
            exact ⟨randString_length g i cs targetLen,
              randString_mem g i cs targetLen hcs⟩
    · rename_i hge
      obtain rfl := Option.some.inj hrun
      exact ⟨by omega, hnd, hq⟩

/-! ## Helper lemmas: the pattern branch fold is a map-then-filter -/

theorem foldl_filter_append (f : Nat → String) (P : String → Bool) :
    ∀ (l : List Nat) (acc : List String),
      l.foldl (fun acc i => if P (f i) then acc ++ [f i] else acc) acc
        = acc ++ (l.map f).filter P := by
  intro l
  induction l with
  | nil => intro acc; simp
  | cons x xs ih =>
    intro acc
    simp only [List.foldl_cons, List.map_cons, List.filter_cons]
    by_cases h : P (f x)
    · rw [if_pos h, ih, if_pos h]
      simp [List.append_assoc]
    · rw [if_neg h, ih, if_neg h]

theorem generate_pattern_eq_filter (g : Nat → Nat) (minLen maxLen : Nat)
    (pattern : String) (count : Nat) :
    generate_pattern_passwords g minLen maxLen pattern count
      = ((List.range count).map
          (fun i => apply_pattern g (3 * i) pattern i)).filter
            (lengthOK minLen maxLen) := by
  unfold generate_pattern_passwords
  rw [foldl_filter_append (fun i => apply_pattern g (3 * i) pattern i)
    (lengthOK minLen maxLen) (List.range count) []]
  simp

/-! ## Helper lemmas: written content and its lines -/

theorem save_foldl_join :
    ∀ (ps : List String) (acc : List Char),
      ps.foldl (fun acc pwd => acc ++ pwd.data ++ [Char.ofNat 10]) acc
        = acc ++ (ps.map (fun p => p.data ++ [Char.ofNat 10])).flatten := by
  intro ps
  induction ps with
  | nil => intro acc; simp
  | cons p rest ih =>
    intro acc
    simp only [List.foldl_cons, List.map_cons, List.flatten_cons]
    rw [ih]
    simp [List.append_assoc]

theorem readLinesAux_line :
    ∀ (line : List Char), Char.ofNat 10 ∉ line →
      ∀ (cur rest : List Char),
        readLinesAux cur (line ++ Char.ofNat 10 :: rest)
          = (cur ++ line) :: readLinesAux [] rest := by
  intro line
  induction line with
  | nil =>
    intro _ cur rest
    simp [readLinesAux]
  | cons c cs ih =>
    intro h cur rest
    have hc : ¬(c = Char.ofNat 10) := fun e => h (by simp [e])
    simp only [List.cons_append, readLinesAux]
    rw [if_neg hc]
    simp only [List.append_eq]
    rw [ih (fun hm => h (List.mem_cons_of_mem _ hm)) (cur ++ [c])]
    simp [List.append_assoc]

theorem readLinesAux_join :
    ∀ (ps : List String), (∀ p ∈ ps, Char.ofNat 10 ∉ p.data) →
      readLinesAux [] ((ps.map (fun p => p.data ++ [Char.ofNat 10])).flatten)
        = ps.map String.data := by
  intro ps
  induction ps with
  | nil => intro _; simp [readLinesAux]
  | cons p rest ih =>
    intro h
    simp only [List.map_cons, List.flatten_cons, List.append_assoc,
      List.singleton_append]
    rw [readLinesAux_line p.data (h p (by simp)) []]
    rw [ih (fun q hq => h q (by simp [hq]))]
    simp

/-! ## Claim theorems -/

/-- Claim C1: for every `count ≥ 1` and target length `L ≥ 1`, whenever
`generate_random_passwords` returns a collection (the unbounded sampling
loop ran to completion within the given fuel), that collection has exactly
`count` members, all distinct, each of length exactly `L`, and every
character of every member belongs to the declared charset; the loop never
stops before the set reaches `count`. -/
theorem generate_random_meets_contract (g : Nat → Nat)
    (minLen maxLen count L fuel : Nat) (ps : List String)
    (_hcount : 1 ≤ count) (hL : 1 ≤ L)
    (hrun : generate_random_passwords g minLen maxLen count (some L) fuel
      = some ps) :
    ps.length = count ∧ ps.Nodup ∧
      ∀ p ∈ ps, p.length = L ∧ ∀ c ∈ p.data, c ∈ charset := by
  simp only [generate_random_passwords] at hrun
  rw [if_neg (by omega : ¬L = 0)] at hrun
  exact genLoop_spec g charset count L (by decide) fuel 1 [] ps hrun
    (by simp) List.nodup_nil (by simp)

/-- Witness for C1: a concrete terminating run with `count = 2`, `L = 1`. -/
theorem generate_random_meets_contract_witness :
    (["b", "c"] : List String).length = 2 :=
  (generate_random_meets_contract (fun n => n) 6 12 2 1 3 ["b", "c"]
    (by decide) (by decide) (by decide)).1

/-- Claim C4, counterexample: the claim says a supplied `fixedLength` is
always used as the target length.  With `fixedLength = 0` supplied
(`min = max = 3`), the Python truthiness test `if length:` treats it as
absent, and the run produces a password of length 3, not 0. -/
theorem fixed_length_zero_ignored_counterexample :
    generate_random_passwords (fun _ => 0) 3 3 1 (some 0) 2
        = some [String.mk ['a', 'a', 'a']] ∧
      ¬(∀ p ∈ [String.mk ['a', 'a', 'a']], String.length p = 0) := by
  constructor
  · decide
  · decide

/-- Claim C4 (amended): a supplied fixed length of `0` is treated exactly
as an absent fixed length (Python truthiness); a supplied nonzero fixed
length is the target length of every output; with no (effective) fixed
length, one target length is drawn once per call from
`[minLength, maxLength]` and shared by all outputs of the call. -/
theorem fixed_length_override_amended :
    (∀ (g : Nat → Nat) (minLen maxLen count fuel : Nat),
      generate_random_passwords g minLen maxLen count (some 0) fuel
        = generate_random_passwords g minLen maxLen count none fuel) ∧
    (∀ (g : Nat → Nat) (minLen maxLen count L fuel : Nat) (ps : List String),
      L ≠ 0 →
      generate_random_passwords g minLen maxLen count (some L) fuel
        = some ps →
      ∀ p ∈ ps, p.length = L) ∧
    (∀ (g : Nat → Nat) (minLen maxLen count fuel : Nat) (ps : List String),
      minLen ≤ maxLen →
      generate_random_passwords g minLen maxLen count none fuel = some ps →
      ∃ L, minLen ≤ L ∧ L ≤ maxLen ∧ ∀ p ∈ ps, p.length = L) := by
  refine ⟨?_, ?_, ?_⟩
  · intro g mn mx count fuel
    simp [generate_random_passwords]
  · intro g mn mx count L fuel ps hL hrun
    simp only [generate_random_passwords] at hrun
    rw [if_neg hL] at hrun
    exact fun p hp =>
      ((genLoop_spec g charset count L (by decide) fuel 1 [] ps hrun
        (by simp) List.nodup_nil (by simp)).2.2 p hp).1
  · intro g mn mx count fuel ps hmn hrun
    simp only [generate_random_passwords] at hrun
    refine ⟨randIntBetween g 0 mn mx, ?_, ?_, ?_⟩
    · unfold randIntBetween; omega
    · unfold randIntBetween
      have h1 : g 0 % (mx - mn + 1) < mx - mn + 1 := Nat.mod_lt _ (by omega)
      omega
    · exact fun p hp =>
        ((genLoop_spec g charset count _ (by decide) fuel 1 [] ps hrun
          (by simp) List.nodup_nil (by simp)).2.2 p hp).1

/-- Witness for the amended C4: with nonzero fixed length 3, the single
output of a concrete run has length 3. -/
theorem fixed_length_override_amended_witness :
    String.length (String.mk ['a', 'a', 'a']) = 3 :=
  fixed_length_override_amended.2.1 (fun _ => 0) 3 3 1 3 2
    [String.mk ['a', 'a', 'a']] (by decide) (by decide)
    (String.mk ['a', 'a', 'a']) (by decide)

/-- Claim C2: the pattern branch equals mapping the expander over seed
indices `0, 1, …, count-1` in that order and then filtering by the
inclusive `[minLength, maxLength]` length window (entries outside the
window are dropped, never regenerated, and survivors keep ascending seed
order); the result size is at most `count`; and filtering entries of
lengths 4, 8, 12 against the window `[6, 10]` keeps only the length-8
entry. -/
theorem pattern_branch_order_filter :
    (∀ (g : Nat → Nat) (minLen maxLen : Nat) (pattern : String)
        (count : Nat),
      generate_pattern_passwords g minLen maxLen pattern count
        = ((List.range count).map
            (fun i => apply_pattern g (3 * i) pattern i)).filter
              (lengthOK minLen maxLen)) ∧
    (∀ (g : Nat → Nat) (minLen maxLen : Nat) (pattern : String)
        (count : Nat),
      (generate_pattern_passwords g minLen maxLen pattern count).length
        ≤ count) ∧
    (∀ a b c : String, a.length = 4 → b.length = 8 → c.length = 12 →
      [a, b, c].filter (lengthOK 6 10) = [b]) := by
  refine ⟨generate_pattern_eq_filter, ?_, ?_⟩
  · intro g mn mx pat count
    rw [generate_pattern_eq_filter]
    calc (((List.range count).map
          (fun i => apply_pattern g (3 * i) pat i)).filter
            (lengthOK mn mx)).length
        ≤ ((List.range count).map
            (fun i => apply_pattern g (3 * i) pat i)).length :=
          List.length_filter_le _ _
      _ = count := by simp
  · intro a b c ha hb hc
    simp [List.filter_cons, lengthOK, ha, hb, hc]

/-- Witness for C2: concrete strings of lengths 4, 8, 12 filtered with
bounds 6 and 10 leave exactly the length-8 string. -/
theorem pattern_branch_order_filter_witness :
    ["xxxx", "yyyyyyyy", "zzzzzzzzzzzz"].filter (lengthOK 6 10)
      = ["yyyyyyyy"] :=
  pattern_branch_order_filter.2.2 "xxxx" "yyyyyyyy" "zzzzzzzzzzzz"
    (by decide) (by decide) (by decide)

/-- Claim C3: `apply_pattern` substitutes the tokens in the fixed order
`{n}`, `{a}`, `{d}`, `{s}`, each as one blanket replace of all occurrences
of the literal token, so one shared randomly drawn letter serves every
`{a}` occurrence of an expansion (likewise one digit for `{d}` and one
symbol for `{s}`); token-free literal text passes through unchanged, and an
unrecognized token such as `{x}` also passes through, there being no
escaping mechanism for literal braces. -/
theorem apply_pattern_token_order_shared_draws (g : Nat → Nat) (base : Nat)
    (p : String) (seed : Nat) :
    (∃ la ld ls : Char,
      la ∈ asciiLetters ∧ ld ∈ digitChars ∧ ls ∈ punctChars ∧
        apply_pattern g base p seed
          = pyReplace
              (pyReplace
                (pyReplace (pyReplace p "{n}" (Nat.repr seed))
                  "{a}" (String.mk [la]))
                "{d}" (String.mk [ld]))
              "{s}" (String.mk [ls])) ∧
    (∃ la : Char, la ∈ asciiLetters ∧
      apply_pattern g base "{a}{a}" seed = String.mk [la, la]) ∧
    (Char.ofNat 123 ∉ p.data → apply_pattern g base p seed = p) ∧
    apply_pattern g base "{x}" seed = "{x}" := by
  have hmemA : randChoice g base asciiLetters ∈ asciiLetters :=
    randChoice_mem g base asciiLetters (by decide)
  refine ⟨⟨randChoice g base asciiLetters,
    randChoice g (base + 1) digitChars, randChoice g (base + 2) punctChars,
    hmemA, randChoice_mem _ _ _ (by decide), randChoice_mem _ _ _ (by decide),
    rfl⟩, ?_, fun h => apply_pattern_no_brace g base p seed h, ?_⟩
  · refine ⟨randChoice g base asciiLetters, hmemA, ?_⟩
    have e1 : pyReplace "{a}{a}" "{n}" (Nat.repr seed) = "{a}{a}" := by
      unfold pyReplace
      rw [pyReplaceL_no_occur _ _ _ (by decide)]
    have e2 : pyReplace "{a}{a}" "{a}"
          (String.mk [randChoice g base asciiLetters])
        = String.mk [randChoice g base asciiLetters,
            randChoice g base asciiLetters] := by
      unfold pyReplace
      rw [show ("{a}{a}" : String).data = "{a}".data ++ "{a}".data from
          by decide]
      rw [pyReplaceL_append_match _ _ _ (by decide),
        pyReplaceL_self _ _ (by decide)]
      rfl
    have hnb : Char.ofNat 123
        ∉ [randChoice g base asciiLetters, randChoice g base asciiLetters] := by
      have hne : ∀ x ∈ asciiLetters, ¬Char.ofNat 123 = x := by decide
      intro hm
      rcases List.mem_cons.mp hm with e | hm2
      · exact hne _ hmemA e
      · rcases List.mem_cons.mp hm2 with e | hm3
        · exact hne _ hmemA e
        · simp at hm3
    have e3 := pyReplace_no_brace
      (String.mk [randChoice g base asciiLetters,
        randChoice g base asciiLetters])
      "{d}" (String.mk [randChoice g (base + 1) digitChars])
      ['d', Char.ofNat 125] (by decide) hnb
    have e4 := pyReplace_no_brace
      (String.mk [randChoice g base asciiLetters,
        randChoice g base asciiLetters])
      "{s}" (String.mk [randChoice g (base + 2) punctChars])
      ['s', Char.ofNat 125] (by decide) hnb
    show pyReplace (pyReplace (pyReplace (pyReplace "{a}{a}" "{n}"
        (Nat.repr seed)) "{a}" (String.mk [randChoice g base asciiLetters]))
        "{d}" (String.mk [randChoice g (base + 1) digitChars]))
        "{s}" (String.mk [randChoice g (base + 2) punctChars]) = _
    rw [e1, e2, e3, e4]
  · have e1 : pyReplace "{x}" "{n}" (Nat.repr seed) = "{x}" := by
      unfold pyReplace
      rw [pyReplaceL_no_occur _ _ _ (by decide)]
    have e2 : pyReplace "{x}" "{a}"
        (String.mk [randChoice g base asciiLetters]) = "{x}" := by
      unfold pyReplace
      rw [pyReplaceL_no_occur _ _ _ (by decide)]
    have e3 : pyReplace "{x}" "{d}"
        (String.mk [randChoice g (base + 1) digitChars]) = "{x}" := by
      unfold pyReplace
      rw [pyReplaceL_no_occur _ _ _ (by decide)]
    have e4 : pyReplace "{x}" "{s}"
        (String.mk [randChoice g (base + 2) punctChars]) = "{x}" := by
      unfold pyReplace
      rw [pyReplaceL_no_occur _ _ _ (by decide)]
    show pyReplace (pyReplace (pyReplace (pyReplace "{x}" "{n}"
        (Nat.repr seed)) "{a}" (String.mk [randChoice g base asciiLetters]))
        "{d}" (String.mk [randChoice g (base + 1) digitChars]))
        "{s}" (String.mk [randChoice g (base + 2) punctChars]) = "{x}"
    rw [e1, e2, e3, e4]

/-- Witness for C3: a token-free pattern passes through a concrete run
unchanged. -/
theorem apply_pattern_token_order_shared_draws_witness :
    apply_pattern (fun _ => 0) 0 "xy" 7 = "xy" :=
  (apply_pattern_token_order_shared_draws (fun _ => 0) 0 "xy" 7).2.2.1
    (by decide)

/-- Helper for C8: full computation of `apply_pattern` on `"user{n}"`. -/
theorem apply_pattern_user_n (g : Nat → Nat) (base seed : Nat) :
    apply_pattern g base "user{n}" seed
      = String.mk ('u' :: 's' :: 'e' :: 'r' :: (Nat.repr seed).data) := by
  have e1 : pyReplace "user{n}" "{n}" (Nat.repr seed)
      = String.mk ('u' :: 's' :: 'e' :: 'r' :: (Nat.repr seed).data) := by
    unfold pyReplace
    rw [show ("user{n}" : String).data
        = 'u' :: 's' :: 'e' :: 'r' :: "{n}".data from by decide]
    rw [pyReplaceL_cons_no_match _ _ _ _ (by decide),
      pyReplaceL_cons_no_match _ _ _ _ (by decide),
      pyReplaceL_cons_no_match _ _ _ _ (by decide),
      pyReplaceL_cons_no_match _ _ _ _ (by decide),
      pyReplaceL_self _ _ (by decide)]
  have hnb : Char.ofNat 123
      ∉ ('u' :: 's' :: 'e' :: 'r' :: (Nat.repr seed).data) := by
    intro hm
    rcases List.mem_cons.mp hm with e | hm2
    · exact absurd e (by decide)
    rcases List.mem_cons.mp hm2 with e | hm3
    · exact absurd e (by decide)
    rcases List.mem_cons.mp hm3 with e | hm4
    · exact absurd e (by decide)
    rcases List.mem_cons.mp hm4 with e | hm5
    · exact absurd e (by decide)
    exact repr_no_brace seed hm5
  have e2 := pyReplace_no_brace
    (String.mk ('u' :: 's' :: 'e' :: 'r' :: (Nat.repr seed).data))
    "{a}" (String.mk [randChoice g base asciiLetters])
    ['a', Char.ofNat 125] (by decide) hnb
  have e3 := pyReplace_no_brace
    (String.mk ('u' :: 's' :: 'e' :: 'r' :: (Nat.repr seed).data))
    "{d}" (String.mk [randChoice g (base + 1) digitChars])
    ['d', Char.ofNat 125] (by decide) hnb
  have e4 := pyReplace_no_brace
    (String.mk ('u' :: 's' :: 'e' :: 'r' :: (Nat.repr seed).data))
    "{s}" (String.mk [randChoice g (base + 2) punctChars])
    ['s', Char.ofNat 125] (by decide) hnb
  show pyReplace (pyReplace (pyReplace (pyReplace "user{n}" "{n}"
      (Nat.repr seed)) "{a}" (String.mk [randChoice g base asciiLetters]))
      "{d}" (String.mk [randChoice g (base + 1) digitChars]))
      "{s}" (String.mk [randChoice g (base + 2) punctChars]) = _
  rw [e1, e2, e3, e4]

/-- Claim C8: the `{n}` portion of an expansion is deterministic: for any
oracle (any outcome of the random draws of the other tokens),
`apply_pattern g base "user{n}" seed` equals `"user"` followed by the
decimal representation of the seed index, and at seed 5 it is exactly
`"user5"`. -/
theorem pattern_n_token_deterministic (g : Nat → Nat) (base seed : Nat) :
    apply_pattern g base "user{n}" seed
        = String.mk ("user".data ++ (Nat.repr seed).data) ∧
      apply_pattern g base "user{n}" 5 = "user5" := by
  constructor
  · rw [apply_pattern_user_n g base seed]
    rfl
  · rw [apply_pattern_user_n g base 5]
    decide

/-- Claim C9: the pattern of fifteen `{n}` tokens with bounds `min = 1`,
`max = 5` and `count = 1` expands (at seed 0) to a 15-character string,
which the length filter drops, so generation returns the empty collection,
and writing that empty collection succeeds, producing an empty file. -/
theorem fifteen_n_zero_result_success (g : Nat → Nat) :
    generate_pattern_passwords g 1 5
        "{n}{n}{n}{n}{n}{n}{n}{n}{n}{n}{n}{n}{n}{n}{n}" 1 = [] ∧
      save_to_file true [] = (true, "") := by
  constructor
  · have e1 : pyReplace "{n}{n}{n}{n}{n}{n}{n}{n}{n}{n}{n}{n}{n}{n}{n}"
        "{n}" (Nat.repr 0) = String.mk (List.replicate 15 '0') := by decide
    have hnb : Char.ofNat 123 ∉ (List.replicate 15 '0') := by decide
    have e2 := pyReplace_no_brace (String.mk (List.replicate 15 '0'))
      "{a}" (String.mk [randChoice g 0 asciiLetters])
      ['a', Char.ofNat 125] (by decide) hnb
    have e3 := pyReplace_no_brace (String.mk (List.replicate 15 '0'))
      "{d}" (String.mk [randChoice g 1 digitChars])
      ['d', Char.ofNat 125] (by decide) hnb
    have e4 := pyReplace_no_brace (String.mk (List.replicate 15 '0'))
      "{s}" (String.mk [randChoice g 2 punctChars])
      ['s', Char.ofNat 125] (by decide) hnb
    have hap : apply_pattern g (3 * 0)
        "{n}{n}{n}{n}{n}{n}{n}{n}{n}{n}{n}{n}{n}{n}{n}" 0
        = String.mk (List.replicate 15 '0') := by
      show pyReplace (pyReplace (pyReplace (pyReplace
          "{n}{n}{n}{n}{n}{n}{n}{n}{n}{n}{n}{n}{n}{n}{n}" "{n}"
          (Nat.repr 0)) "{a}" (String.mk [randChoice g (3 * 0) asciiLetters]))
          "{d}" (String.mk [randChoice g (3 * 0 + 1) digitChars]))
          "{s}" (String.mk [randChoice g (3 * 0 + 2) punctChars])
          = String.mk (List.replicate 15 '0')
      rw [e1]
      rw [show (3 * 0 : Nat) = 0 from rfl, show (3 * 0 + 1 : Nat) = 1 from
        rfl, show (3 * 0 + 2 : Nat) = 2 from rfl] at *
      rw [e2, e3, e4]
    rw [generate_pattern_eq_filter,
      show List.range 1 = [0] from by decide, List.map_cons,
      List.map_nil, hap, List.filter_cons, if_neg (by decide), List.filter_nil]
  · decide

/-- Claim C6: the writer reports success and writes each entry followed by
exactly one line terminator, in the iteration order of the collection; it
reports failure when the destination cannot be opened or written; and
writing `["abc", "def"]` then reading the content back line by line yields
exactly the two lines `"abc"` and `"def"`, with no trailing empty line. -/
theorem save_to_file_writes_lines_roundtrip :
    (∀ ps : List String,
      (save_to_file true ps).1 = true ∧
      (save_to_file true ps).2.data
        = (ps.map (fun p => p.data ++ [Char.ofNat 10])).flatten) ∧
    (∀ ps : List String, (save_to_file false ps).1 = false) ∧
    readLines (save_to_file true ["abc", "def"]).2 = ["abc", "def"] := by
  refine ⟨?_, fun ps => rfl, by decide⟩
  intro ps
  refine ⟨rfl, ?_⟩
  have e : (save_to_file true ps).2.data
      = ps.foldl (fun acc pwd => acc ++ pwd.data ++ [Char.ofNat 10]) [] := rfl
  rw [e, save_foldl_join ps []]
  simp

/-- Claim C7: validation accepts the length bounds `min = 1, max = 128`
(for any valid count), rejects `min = 129` and rejects `max = 0` whatever
the other bound and the count are, and any validation rejection aborts the
run before any generation work and before any output is produced
(`mainRun` yields nothing). -/
theorem validation_boundaries_reject_before_generation :
    (∀ count : Int, 1 ≤ count → validateArgs 1 128 count = true) ∧
    (∀ mx count : Int, validateArgs 129 mx count = false) ∧
    (∀ mn count : Int, validateArgs mn 0 count = false) ∧
    (∀ (g : Nat → Nat) (openOK : Bool) (count mn mx : Int)
        (lenOpt : Option Nat) (patternOpt : Option String) (fuel : Nat),
      validateArgs mn mx count = false →
      mainRun g openOK count mn mx lenOpt patternOpt fuel = none) := by
  refine ⟨?_, ?_, ?_, ?_⟩
  · intro count h
    unfold validateArgs
    rw [if_neg (by omega), if_neg (by omega), if_neg (by omega)]
  · intro mx count
    unfold validateArgs
    by_cases h : (129 : Int) < 1 ∨ mx > 128
    · rw [if_pos h]
    · rw [if_neg h, if_pos (by omega)]
  · intro mn count
    unfold validateArgs
    by_cases h : mn < 1 ∨ (0 : Int) > 128
    · rw [if_pos h]
    · rw [if_neg h, if_pos (by omega)]
  · intro g openOK count mn mx lenOpt patternOpt fuel hval
    unfold validateArgs at hval
    unfold mainRun
    by_cases h1 : mn < 1 ∨ mx > 128
    · rw [if_pos h1]
    · rw [if_neg h1] at hval ⊢
      by_cases h2 : mn > mx
      · rw [if_pos h2]
      · rw [if_neg h2] at hval ⊢
        by_cases h3 : count < 1
        · rw [if_pos h3]
        · rw [if_neg h3] at hval
          simp at hval

/-- Witness for C7: the boundary acceptance and both rejections at
concrete arguments, and a rejected run producing no output. -/
theorem validation_boundaries_witness :
    validateArgs 1 128 1 = true ∧ validateArgs 129 12 1 = false ∧
      validateArgs 6 0 1 = false ∧
      mainRun (fun _ => 0) true 1 129 12 none none 0 = none :=
  ⟨validation_boundaries_reject_before_generation.1 1 (by decide),
   validation_boundaries_reject_before_generation.2.1 12 1,
   validation_boundaries_reject_before_generation.2.2.1 6 1,
   validation_boundaries_reject_before_generation.2.2.2 (fun _ => 0) true
     1 129 12 none none 0
     (validation_boundaries_reject_before_generation.2.1 12 1)⟩

/-- Claim C10: no charset character is the line terminator, hence no
random-sampler output contains a terminator, and writing any collection of
terminator-free strings produces content whose lines are exactly that
collection (one line per password, in order). -/
theorem charset_no_newline_write_line_count :
    (Char.ofNat 10 ∉ charset) ∧
    (∀ (g : Nat → Nat) (minLen maxLen count : Nat) (lenOpt : Option Nat)
        (fuel : Nat) (ps : List String),
      generate_random_passwords g minLen maxLen count lenOpt fuel = some ps →
      ∀ p ∈ ps, Char.ofNat 10 ∉ p.data) ∧
    (∀ ps : List String, (∀ p ∈ ps, Char.ofNat 10 ∉ p.data) →
      readLines (save_to_file true ps).2 = ps) := by
  refine ⟨by decide, ?_, ?_⟩
  · intro g mn mx count lenOpt fuel ps hrun p hp hm
    simp only [generate_random_passwords] at hrun
    have hspec := genLoop_spec g charset count _ (by decide) fuel 1 [] ps
      hrun (by simp) List.nodup_nil (by simp)
    have hin : Char.ofNat 10 ∈ charset := (hspec.2.2 p hp).2 _ hm
    revert hin
    decide
  · intro ps h
    unfold readLines
    have e : (save_to_file true ps).2.data
        = (ps.map (fun p => p.data ++ [Char.ofNat 10])).flatten := by
      have e0 : (save_to_file true ps).2.data
          = ps.foldl (fun acc pwd => acc ++ pwd.data ++ [Char.ofNat 10]) []
        := rfl
      rw [e0, save_foldl_join ps []]
      simp
    rw [e, readLinesAux_join ps h, List.map_map]
    have hid : (String.mk ∘ String.data) = id := funext (fun s => rfl)
    rw [hid, List.map_id]

/-- Witness for C10: a concrete newline-free collection round-trips to
exactly its own lines. -/
theorem charset_no_newline_write_line_count_witness :
    readLines (save_to_file true ["abc"]).2 = ["abc"] :=
  charset_no_newline_write_line_count.2.2 ["abc"] (by decide)
